import Mathlib

/-!
Verification development for the `logger` package (logrus-backed leveled,
structured logging facade, `src/logrus.go`).

Shallow embedding choices:
* A logrus entry's accumulated field data is a Go map from string keys to
  values; we represent it as an association list `Fields` in which a write
  (`setField`, the model of logrus `WithField`) removes every previous
  binding of the key and appends the new one, giving Go-map semantics
  (one binding per key, last write wins).
* Wall-clock time is an explicit `now : Nat` parameter to the Entry
  constructors, standing for the value of `time.Now()` at the call.
* `Flush` is effectful (a write to the backend, and for the fatal level a
  call to `os.Exit(1)`); it is embedded as a function returning the list of
  effects it performs, in order.
* `ltolr` panics on an unmapped level; the panic is embedded as `none`.
* The `Level` type and its six constants are declared in a file of this
  repository outside `src/`; they are modelled from the spec as a Go-style
  integer type with six consecutive constants ordered
  Debug < Info < Warn < Error < Fatal < Panic.
* The external collaborators (`github.com/juju/errors` stack extraction,
  Go `error` values) are modelled from the spec's collaborator interface.
-/

/-- Modelled from the spec: the repository declares `type Level int` with six
ordered constants outside `src/`; a Go integer severity tier. -/
abbrev Level := Int

/-- Modelled from the spec: least severe tier. -/
def DebugLevel : Level := 0

/-- Modelled from the spec. -/
def InfoLevel : Level := 1

/-- Modelled from the spec. -/
def WarnLevel : Level := 2

/-- Modelled from the spec. -/
def ErrorLevel : Level := 3

/-- Modelled from the spec. -/
def FatalLevel : Level := 4

/-- Modelled from the spec: most severe tier. -/
def PanicLevel : Level := 5

/-- Severity representation of the logrus backend (`logrus.Level`). -/
inductive LogrusLevel where
  | panicL
  | fatalL
  | errorL
  | warnL
  | infoL
  | debugL
deriving DecidableEq, Repr

/-- Values attachable to a log field: the payload types of the typed
`Add*` setters (string, bool, int, time, duration). -/
inductive Value where
  | str (s : String)
  | bool (b : Bool)
  | int (i : Int)
  | time (t : Nat)
  | dur (d : Int)
deriving DecidableEq, Repr

/-- Field data of a logrus entry: a Go map from string keys to values,
represented as an association list with at most one binding per key
maintained by `setField`. -/
abbrev Fields := List (String × Value)

/-- Lookup of a key in field data (Go map read). -/
def getField : Fields → String → Option Value
  | [], _ => none
  | p :: rest, k => if p.1 = k then some p.2 else getField rest k

/-- Number of bindings of a key present in field data. -/
def countKey : Fields → String → Nat
  | [], _ => 0
  | p :: rest, k => (if p.1 = k then 1 else 0) + countKey rest k

/-- Drop every binding of a key (the overwrite part of a Go map write). -/
def removeKey : Fields → String → Fields
  | [], _ => []
  | p :: rest, k => if p.1 = k then removeKey rest k else p :: removeKey rest k

/-- Model of logrus `WithField` on entry data: a Go map write (the previous
binding of the key, if any, is overwritten). -/
def setField (fs : Fields) (k : String) (v : Value) : Fields :=
  removeKey fs k ++ [(k, v)]

/-- Model of logrus `WithFields` on entry data: every pair of the supplied
map is written. -/
def setFields (fs : Fields) (new : Fields) : Fields :=
  new.foldl (fun acc p => setField acc p.1 p.2) fs

/-- Last binding a field list assigns to a key, if any. -/
def lastBind (new : Fields) (k : String) : Option Value :=
  getField new.reverse k

/-- Modelled from the spec: a Go `error` value as seen by this facade — a
textual message (`Error()`) plus optional causal-chain trace metadata. -/
structure GoError where
  msg : String
  stack : Option String
deriving DecidableEq, Repr

/-- Modelled from the spec: the external stack-extraction collaborator
(`errors.ErrorStack`); total, and degrades to an empty string for an error
without trace metadata. -/
def errorStackText (e : GoError) : String :=
  match e.stack with
  | some s => s
  | none => ""

/-- Embedding of `ltolr` (src/logrus.go:13): maps the facade `Level` to the
logrus severity; the `panic` on an unmapped value is embedded as `none`. -/
def ltolr (level : Level) : Option LogrusLevel :=
  if level = DebugLevel then some LogrusLevel.debugL
  else if level = InfoLevel then some LogrusLevel.infoL
  else if level = WarnLevel then some LogrusLevel.warnL
  else if level = ErrorLevel then some LogrusLevel.errorL
  else if level = FatalLevel then some LogrusLevel.fatalL
  else if level = PanicLevel then some LogrusLevel.panicL
  else none

/-- Embedding of `lLog` (src/logrus.go:38): the wrapped
`logrus.FieldLogger` is represented by the persistent fields it has
accumulated (its output sink and threshold belong to the backend and play
no role in the claims below). -/
structure lLog where
  fields : Fields
deriving DecidableEq, Repr

/-- Embedding of `newLogrus` (src/logrus.go:31): a fresh logrus logger has
no persistent fields; `ltolr` may panic (`none`) on an unmapped level. -/
def newLogrus (lvl : Level) : Option lLog :=
  (ltolr lvl).map (fun _ => ⟨[]⟩)

/-- Embedding of `lEntry` (src/logrus.go:98): a severity tag plus the
wrapped logrus entry's field data. -/
structure lEntry where
  level : LogrusLevel
  entry : Fields
deriving DecidableEq, Repr

/-- Embedding of `lLog.WithField` (src/logrus.go:43): a new logger whose
writer has one more field; the receiver is not written to. -/
def lLog.WithField (l : lLog) (key value : String) : lLog :=
  ⟨setField l.fields key (Value.str value)⟩

/-- Embedding of `lLog.Debug` (src/logrus.go:69). -/
def lLog.Debug (l : lLog) (now : Nat) : lEntry :=
  ⟨LogrusLevel.debugL, setField l.fields "time" (Value.time now)⟩

/-- Embedding of `lLog.Info` (src/logrus.go:74). -/
def lLog.Info (l : lLog) (now : Nat) : lEntry :=
  ⟨LogrusLevel.infoL, setField l.fields "time" (Value.time now)⟩

/-- Embedding of `lLog.Warn` (src/logrus.go:79). -/
def lLog.Warn (l : lLog) (now : Nat) : lEntry :=
  ⟨LogrusLevel.warnL, setField l.fields "time" (Value.time now)⟩

/-- Embedding of `lLog.Error` (src/logrus.go:84). -/
def lLog.Error (l : lLog) (now : Nat) : lEntry :=
  ⟨LogrusLevel.errorL, setField l.fields "time" (Value.time now)⟩

/-- Embedding of `lLog.Fatal` (src/logrus.go:89). -/
def lLog.Fatal (l : lLog) (now : Nat) : lEntry :=
  ⟨LogrusLevel.fatalL, setField l.fields "time" (Value.time now)⟩

/-- Embedding of `lLog.Panic` (src/logrus.go:94). -/
def lLog.Panic (l : lLog) (now : Nat) : lEntry :=
  ⟨LogrusLevel.panicL, setField l.fields "time" (Value.time now)⟩

/-- Embedding of `lLog.Level` (src/logrus.go:49): the Go `switch` with a
`default` branch returning `l.Info()`. -/
def lLog.Level (l : lLog) (lvl : Level) (now : Nat) : lEntry :=
  if lvl = DebugLevel then l.Debug now
  else if lvl = InfoLevel then l.Info now
  else if lvl = WarnLevel then l.Warn now
  else if lvl = ErrorLevel then l.Error now
  else if lvl = FatalLevel then l.Fatal now
  else if lvl = PanicLevel then l.Panic now
  else l.Info now

/-- Observable effects `Flush` can perform, in order: the handoff of the
assembled record to the backend (`Logln`), and a process exit (`os.Exit`). -/
inductive Effect where
  | write (level : LogrusLevel) (fields : Fields) (msg : String)
  | exit (code : Nat)
deriving DecidableEq, Repr

/-- Embedding of `lEntry.Flush` (src/logrus.go:105): one backend write,
then `os.Exit(1)` exactly when the level is the logrus fatal level. -/
def lEntry.Flush (l : lEntry) (msg : String) : List Effect :=
  [Effect.write l.level l.entry msg]
    ++ (if l.level = LogrusLevel.fatalL then [Effect.exit 1] else [])

/-- Embedding of `lEntry.AddFields` (src/logrus.go:113). -/
def lEntry.AddFields (l : lEntry) (fs : Fields) : lEntry :=
  ⟨l.level, setFields l.entry fs⟩

/-- Embedding of `lEntry.AddErr` (src/logrus.go:120). -/
def lEntry.AddErr (l : lEntry) (err : GoError) : lEntry :=
  ⟨l.level, setField (setField l.entry "err" (Value.str err.msg))
    "err_stack" (Value.str (errorStackText err))⟩

/-- Embedding of `lEntry.AddError` (src/logrus.go:129). -/
def lEntry.AddError (l : lEntry) (key : String) (val : GoError) : lEntry :=
  ⟨l.level, setField (setField l.entry key (Value.str val.msg))
    (key ++ "_stack") (Value.str (errorStackText val))⟩

/-- Embedding of `lEntry.AddBool` (src/logrus.go:138). -/
def lEntry.AddBool (l : lEntry) (key : String) (val : Bool) : lEntry :=
  ⟨l.level, setField l.entry key (Value.bool val)⟩

/-- Embedding of `lEntry.AddInt` (src/logrus.go:144). -/
def lEntry.AddInt (l : lEntry) (key : String) (val : Int) : lEntry :=
  ⟨l.level, setField l.entry key (Value.int val)⟩

/-- Embedding of `lEntry.AddStr` (src/logrus.go:150). -/
def lEntry.AddStr (l : lEntry) (key : String) (val : String) : lEntry :=
  ⟨l.level, setField l.entry key (Value.str val)⟩

/-- Embedding of `lEntry.AddTime` (src/logrus.go:156). -/
def lEntry.AddTime (l : lEntry) (key : String) (val : Nat) : lEntry :=
  ⟨l.level, setField l.entry key (Value.time val)⟩

/-- Embedding of `lEntry.AddDur` (src/logrus.go:162). -/
def lEntry.AddDur (l : lEntry) (key : String) (val : Int) : lEntry :=
  ⟨l.level, setField l.entry key (Value.dur val)⟩

/-- Embedding of `lEntry.AddAny` (src/logrus.go:168). -/
def lEntry.AddAny (l : lEntry) (key : String) (val : Value) : lEntry :=
  ⟨l.level, setField l.entry key val⟩

/-- One step of the fluent `Add*` surface of `lEntry`, for quantifying over
arbitrary builder call sequences. -/
inductive AddOp where
  | fields (fs : Fields)
  | err (e : GoError)
  | error (k : String) (e : GoError)
  | bool (k : String) (b : Bool)
  | int (k : String) (i : Int)
  | str (k : String) (v : String)
  | time (k : String) (t : Nat)
  | dur (k : String) (d : Int)
  | any (k : String) (v : Value)
deriving DecidableEq, Repr

/-- Run one `Add*` call on an entry. -/
def applyOp (e : lEntry) : AddOp → lEntry
  | AddOp.fields fs => e.AddFields fs
  | AddOp.err ge => e.AddErr ge
  | AddOp.error k ge => e.AddError k ge
  | AddOp.bool k b => e.AddBool k b
  | AddOp.int k i => e.AddInt k i
  | AddOp.str k v => e.AddStr k v
  | AddOp.time k t => e.AddTime k t
  | AddOp.dur k d => e.AddDur k d
  | AddOp.any k v => e.AddAny k v

/-- Run a sequence of `Add*` calls on an entry, left to right. -/
def applyOps (e : lEntry) (ops : List AddOp) : lEntry :=
  ops.foldl applyOp e

/-- Key/value pairs one `Add*` call writes, in write order. -/
def opFields : AddOp → Fields
  | AddOp.fields fs => fs
  | AddOp.err ge => [("err", Value.str ge.msg), ("err_stack", Value.str (errorStackText ge))]
  | AddOp.error k ge => [(k, Value.str ge.msg), (k ++ "_stack", Value.str (errorStackText ge))]
  | AddOp.bool k b => [(k, Value.bool b)]
  | AddOp.int k i => [(k, Value.int i)]
  | AddOp.str k v => [(k, Value.str v)]
  | AddOp.time k t => [(k, Value.time t)]
  | AddOp.dur k d => [(k, Value.dur d)]
  | AddOp.any k v => [(k, v)]

/-- All key/value pairs a call sequence writes, in write order. -/
def allFields : List AddOp → Fields
  | [] => []
  | op :: ops => opFields op ++ allFields ops

/-- An `Add*` call that never writes the key given. -/
def avoidsKey (op : AddOp) (k : String) : Prop :=
  ∀ p ∈ opFields op, p.1 ≠ k

instance (op : AddOp) (k : String) : Decidable (avoidsKey op k) :=
  inferInstanceAs (Decidable (∀ p ∈ opFields op, p.1 ≠ k))

/-- A fresh Entry as every level-named constructor builds it: tagged with
the given severity, fields = the logger's persistent fields plus the
construction-time stamp. -/
def freshEntryAt (l : lLog) (now : Nat) (e : lEntry) (lvl : LogrusLevel) : Prop :=
  e.level = lvl
    ∧ getField e.entry "time" = some (Value.time now)
    ∧ countKey e.entry "time" = 1
    ∧ ∀ k, k ≠ "time" → getField e.entry k = getField l.fields k

theorem getField_append (a b : Fields) (k : String) :
    getField (a ++ b) k =
      match getField a k with
      | some v => some v
      | none => getField b k := by
  induction a with
  | nil => rfl
  | cons p rest ih =>
    by_cases h : p.1 = k <;> simp [getField, h, ih]

theorem countKey_append (a b : Fields) (k : String) :
    countKey (a ++ b) k = countKey a k + countKey b k := by
  induction a with
  | nil => simp [countKey]
  | cons p rest ih =>
    by_cases h : p.1 = k <;> simp [countKey, h, ih, Nat.add_assoc]

theorem getField_removeKey_self (fs : Fields) (k : String) :
    getField (removeKey fs k) k = none := by
  induction fs with
  | nil => rfl
  | cons p rest ih =>
    by_cases h : p.1 = k <;> simp [removeKey, getField, h, ih]

theorem getField_removeKey_ne (fs : Fields) (a k : String) (h : a ≠ k) :
    getField (removeKey fs a) k = getField fs k := by
  induction fs with
  | nil => rfl
  | cons p rest ih =>
    by_cases hp : p.1 = a
    · simp [removeKey, getField, hp, h, Ne.symm h, ih]
    · by_cases hk : p.1 = k <;> simp [removeKey, getField, hp, hk, h, Ne.symm h, ih]

theorem countKey_removeKey_self (fs : Fields) (k : String) :
    countKey (removeKey fs k) k = 0 := by
  induction fs with
  | nil => rfl
  | cons p rest ih =>
    by_cases h : p.1 = k <;> simp [removeKey, countKey, h, ih]

theorem countKey_removeKey_ne (fs : Fields) (a k : String) (h : a ≠ k) :
    countKey (removeKey fs a) k = countKey fs k := by
  induction fs with
  | nil => rfl
  | cons p rest ih =>
    by_cases hp : p.1 = a
    · simp [removeKey, countKey, hp, h, Ne.symm h, ih]
    · by_cases hk : p.1 = k <;> simp [removeKey, countKey, hp, hk, h, Ne.symm h, ih]

theorem getField_setField_self (fs : Fields) (k : String) (v : Value) :
    getField (setField fs k v) k = some v := by
  rw [setField, getField_append, getField_removeKey_self]
  simp [getField]

theorem getField_setField_ne (fs : Fields) (a k : String) (v : Value) (h : a ≠ k) :
    getField (setField fs a v) k = getField fs k := by
  rw [setField, getField_append, getField_removeKey_ne fs a k h]
  cases hf : getField fs k <;> simp [getField, h]

theorem countKey_setField_self (fs : Fields) (k : String) (v : Value) :
    countKey (setField fs k v) k = 1 := by
  rw [setField, countKey_append, countKey_removeKey_self]
  simp [countKey]

theorem countKey_setField_ne (fs : Fields) (a k : String) (v : Value) (h : a ≠ k) :
    countKey (setField fs a v) k = countKey fs k := by
  rw [setField, countKey_append, countKey_removeKey_ne fs a k h]
  simp [countKey, h]

theorem setFields_nil (fs : Fields) : setFields fs [] = fs := rfl

theorem setFields_cons (fs : Fields) (p : String × Value) (rest : Fields) :
    setFields fs (p :: rest) = setFields (setField fs p.1 p.2) rest := rfl

theorem setFields_append (fs a b : Fields) :
    setFields fs (a ++ b) = setFields (setFields fs a) b := by
  simp [setFields, List.foldl_append]

theorem getField_setFields_avoid (fs new : Fields) (k : String)
    (h : ∀ p ∈ new, p.1 ≠ k) :
    getField (setFields fs new) k = getField fs k := by
  induction new generalizing fs with
  | nil => rfl
  | cons p rest ih =>
    rw [setFields_cons, ih _ (fun q hq => h q (List.mem_cons_of_mem _ hq)),
      getField_setField_ne _ _ _ _ (h p (List.mem_cons_self _ _))]

theorem countKey_setFields_avoid (fs new : Fields) (k : String)
    (h : ∀ p ∈ new, p.1 ≠ k) :
    countKey (setFields fs new) k = countKey fs k := by
  induction new generalizing fs with
  | nil => rfl
  | cons p rest ih =>
    rw [setFields_cons, ih _ (fun q hq => h q (List.mem_cons_of_mem _ hq)),
      countKey_setField_ne _ _ _ _ (h p (List.mem_cons_self _ _))]

theorem lastBind_cons (p : String × Value) (rest : Fields) (k : String) :
    lastBind (p :: rest) k =
      match lastBind rest k with
      | some v => some v
      | none => getField [p] k := by
  unfold lastBind
  rw [List.reverse_cons, getField_append]

theorem getField_setFields_last (fs new : Fields) (k : String) :
    getField (setFields fs new) k =
      match lastBind new k with
      | some v => some v
      | none => getField fs k := by
  induction new generalizing fs with
  | nil => rfl
  | cons p rest ih =>
    rw [setFields_cons, ih, lastBind_cons]
    cases hr : lastBind rest k with
    | some v => rfl
    | none =>
      by_cases hp : p.1 = k
      · subst hp
        simp [getField, getField_setField_self]
      · simp [getField, hp, getField_setField_ne _ _ _ _ hp]

theorem applyOp_entry (e : lEntry) (op : AddOp) :
    applyOp e op = ⟨e.level, setFields e.entry (opFields op)⟩ := by
  cases op <;> rfl

theorem applyOps_nil (e : lEntry) : applyOps e [] = e := rfl

theorem applyOps_cons (e : lEntry) (op : AddOp) (ops : List AddOp) :
    applyOps e (op :: ops) = applyOps (applyOp e op) ops := rfl

theorem applyOps_level (e : lEntry) (ops : List AddOp) :
    (applyOps e ops).level = e.level := by
  induction ops generalizing e with
  | nil => rfl
  | cons op ops ih => rw [applyOps_cons, ih, applyOp_entry]

theorem applyOps_entry (e : lEntry) (ops : List AddOp) :
    (applyOps e ops).entry = setFields e.entry (allFields ops) := by
  induction ops generalizing e with
  | nil => rfl
  | cons op ops ih =>
    rw [applyOps_cons, ih, applyOp_entry, allFields, setFields_append]

theorem allFields_avoid (ops : List AddOp) (k : String)
    (h : ∀ op ∈ ops, avoidsKey op k) :
    ∀ p ∈ allFields ops, p.1 ≠ k := by
  induction ops with
  | nil => intro p hp; cases hp
  | cons op ops ih =>
    intro p hp
    rw [allFields] at hp
    rcases List.mem_append.mp hp with h1 | h2
    · exact h op (List.mem_cons_self _ _) p h1
    · exact ih (fun o ho => h o (List.mem_cons_of_mem _ ho)) p h2

theorem level_dispatch_entry (l : lLog) (lvl : Level) (now : Nat) :
    (lLog.Level l lvl now).entry = setField l.fields "time" (Value.time now) := by
  unfold lLog.Level
  repeat' split
  all_goals rfl

theorem freshEntry_mk (l : lLog) (now : Nat) (lvl : LogrusLevel) :
    freshEntryAt l now ⟨lvl, setField l.fields "time" (Value.time now)⟩ lvl := by
  refine ⟨rfl, ?_, ?_, ?_⟩
  · exact getField_setField_self l.fields "time" (Value.time now)
  · exact countKey_setField_self l.fields "time" (Value.time now)
  · intro k hk
    exact getField_setField_ne l.fields "time" k (Value.time now) (Ne.symm hk)

theorem key_ne_key_stack (k : String) : k ≠ k ++ "_stack" := by
  intro h
  have hlen : k.length = (k ++ "_stack").length := congrArg String.length h
  have h6 : "_stack".length = 6 := rfl
  rw [String.length_append, h6] at hlen
  omega

theorem flush_head (e : lEntry) (msg : String) :
    (e.Flush msg).head? = some (Effect.write e.level e.entry msg) := by
  simp [lEntry.Flush]

/-- C1: for every Entry at the Fatal tier, Flush first hands the record
(level, accumulated fields, message) to the backend and only afterwards
terminates the process with a non-zero exit status — the effect trace is
exactly the backend write followed by `exit 1`, so termination never
precedes the write. -/
theorem c1_fatal_flush_writes_before_exit (e : lEntry) (msg : String)
    (h : e.level = LogrusLevel.fatalL) :
    e.Flush msg = [Effect.write e.level e.entry msg, Effect.exit 1]
    ∧ ∀ c, Effect.exit c ∈ e.Flush msg → c ≠ 0 := by
  have htr : e.Flush msg = [Effect.write e.level e.entry msg, Effect.exit 1] := by
    simp [lEntry.Flush, h]
  refine ⟨htr, ?_⟩
  intro c hc
  rw [htr] at hc
  simp [List.mem_cons] at hc
  omega

/-- C1 witness: a concrete Fatal entry flushed with "boom" writes first and
exits second. -/
theorem c1_fatal_flush_writes_before_exit_witness :
    lEntry.Flush ⟨LogrusLevel.fatalL, []⟩ "boom"
      = [Effect.write LogrusLevel.fatalL [] "boom", Effect.exit 1] :=
  (c1_fatal_flush_writes_before_exit ⟨LogrusLevel.fatalL, []⟩ "boom" rfl).1

/-- C10: for every Entry whose Level is not the Fatal tier (the Panic tier
included), Flush performs the single backend write and returns without any
process-exit effect; Fatal is the only level at which the facade exits. -/
theorem c10_nonfatal_flush_never_exits (e : lEntry) (msg : String)
    (h : e.level ≠ LogrusLevel.fatalL) :
    e.Flush msg = [Effect.write e.level e.entry msg]
    ∧ ∀ c, Effect.exit c ∉ e.Flush msg := by
  have htr : e.Flush msg = [Effect.write e.level e.entry msg] := by
    simp [lEntry.Flush, h]
  refine ⟨htr, ?_⟩
  intro c hc
  rw [htr] at hc
  simp at hc

/-- C10 witness: a concrete Panic-level entry flushes to a single write
effect. -/
theorem c10_nonfatal_flush_never_exits_witness :
    lEntry.Flush ⟨LogrusLevel.panicL, []⟩ "p"
      = [Effect.write LogrusLevel.panicL [] "p"] :=
  (c10_nonfatal_flush_never_exits ⟨LogrusLevel.panicL, []⟩ "p" (by decide)).1

/-- C2: `Logger.Level` dispatches each of the six enumeration members to
the matching level-named constructor, and any value outside the closed
enumeration falls back, without failing, to the Info constructor. -/
theorem c2_level_dispatch (l : lLog) (now : Nat) :
    lLog.Level l DebugLevel now = l.Debug now
    ∧ lLog.Level l InfoLevel now = l.Info now
    ∧ lLog.Level l WarnLevel now = l.Warn now
    ∧ lLog.Level l ErrorLevel now = l.Error now
    ∧ lLog.Level l FatalLevel now = l.Fatal now
    ∧ lLog.Level l PanicLevel now = l.Panic now
    ∧ ∀ lvl : Level, lvl ≠ DebugLevel → lvl ≠ InfoLevel → lvl ≠ WarnLevel →
        lvl ≠ ErrorLevel → lvl ≠ FatalLevel → lvl ≠ PanicLevel →
        lLog.Level l lvl now = l.Info now := by
  refine ⟨?_, ?_, ?_, ?_, ?_, ?_, ?_⟩
  · norm_num [lLog.Level, DebugLevel, InfoLevel, WarnLevel, ErrorLevel, FatalLevel, PanicLevel]
  · norm_num [lLog.Level, DebugLevel, InfoLevel, WarnLevel, ErrorLevel, FatalLevel, PanicLevel]
  · norm_num [lLog.Level, DebugLevel, InfoLevel, WarnLevel, ErrorLevel, FatalLevel, PanicLevel]
  · norm_num [lLog.Level, DebugLevel, InfoLevel, WarnLevel, ErrorLevel, FatalLevel, PanicLevel]
  · norm_num [lLog.Level, DebugLevel, InfoLevel, WarnLevel, ErrorLevel, FatalLevel, PanicLevel]
  · norm_num [lLog.Level, DebugLevel, InfoLevel, WarnLevel, ErrorLevel, FatalLevel, PanicLevel]
  · intro lvl h1 h2 h3 h4 h5 h6
    simp [lLog.Level, h1, h2, h3, h4, h5, h6]

/-- C2 witness: the out-of-range value 42 dispatches to an Info entry. -/
theorem c2_level_dispatch_witness :
    lLog.Level ⟨[]⟩ 42 0 = lLog.Info ⟨[]⟩ 0 :=
  (c2_level_dispatch ⟨[]⟩ 0).2.2.2.2.2.2 42 (by decide) (by decide) (by decide)
    (by decide) (by decide) (by decide)

/-- C3: the internal severity mapping `ltolr` is total over the six
enumeration members, sending each to the corresponding logrus level, and
aborts (embedded as `none`) on every value outside the closed set. -/
theorem c3_ltolr_total_and_aborts_outside :
    ltolr DebugLevel = some LogrusLevel.debugL
    ∧ ltolr InfoLevel = some LogrusLevel.infoL
    ∧ ltolr WarnLevel = some LogrusLevel.warnL
    ∧ ltolr ErrorLevel = some LogrusLevel.errorL
    ∧ ltolr FatalLevel = some LogrusLevel.fatalL
    ∧ ltolr PanicLevel = some LogrusLevel.panicL
    ∧ ∀ lvl : Level, lvl ≠ DebugLevel → lvl ≠ InfoLevel → lvl ≠ WarnLevel →
        lvl ≠ ErrorLevel → lvl ≠ FatalLevel → lvl ≠ PanicLevel →
        ltolr lvl = none := by
  refine ⟨by decide, by decide, by decide, by decide, by decide, by decide, ?_⟩
  intro lvl h1 h2 h3 h4 h5 h6
  simp [ltolr, h1, h2, h3, h4, h5, h6]

/-- C3 witness: the out-of-range value 99 is not mapped (the code panics,
embedded as `none`). -/
theorem c3_ltolr_total_and_aborts_outside_witness :
    ltolr 99 = none :=
  c3_ltolr_total_and_aborts_outside.2.2.2.2.2.2 99 (by decide) (by decide)
    (by decide) (by decide) (by decide) (by decide)

/-- C4: `WithField` returns a new Logger whose persistent field set is the
receiver's plus the one field, and the receiver is unchanged — an Entry
built from the original Logger after the call (through any level dispatch)
does not contain the new field, while an Entry built from the returned
Logger does. -/
theorem c4_withfield_no_mutation (l : lLog) (k v : String) (hk : k ≠ "time")
    (hnew : getField l.fields k = none) :
    (l.WithField k v).fields = setField l.fields k (Value.str v)
    ∧ (∀ lvl now, getField ((lLog.Level l lvl now).entry) k = none)
    ∧ ∀ lvl now, getField ((lLog.Level (l.WithField k v) lvl now).entry) k
        = some (Value.str v) := by
  refine ⟨rfl, ?_, ?_⟩
  · intro lvl now
    rw [level_dispatch_entry, getField_setField_ne _ _ _ _ (Ne.symm hk)]
    exact hnew
  · intro lvl now
    rw [level_dispatch_entry, getField_setField_ne _ _ _ _ (Ne.symm hk)]
    exact getField_setField_self l.fields k (Value.str v)

/-- C4 witness: after deriving a child Logger with field "svc", an Info
entry built from the original empty Logger still lacks "svc", and one built
from the child carries it. -/
theorem c4_withfield_no_mutation_witness :
    getField ((lLog.Level ⟨[]⟩ InfoLevel 0).entry) "svc" = none
    ∧ getField ((lLog.Level (lLog.WithField ⟨[]⟩ "svc" "x") InfoLevel 0).entry) "svc"
        = some (Value.str "x") :=
  ⟨(c4_withfield_no_mutation ⟨[]⟩ "svc" "x" (by decide) rfl).2.1 InfoLevel 0,
   (c4_withfield_no_mutation ⟨[]⟩ "svc" "x" (by decide) rfl).2.2 InfoLevel 0⟩

/-- C5: each of the six level-named constructors returns a fresh Entry
tagged with the corresponding logrus level whose fields are the Logger's
persistent fields plus a single "time" field stamped with the wall-clock
value at the moment of the call. -/
theorem c5_constructors_fresh_entries (l : lLog) (now : Nat) :
    freshEntryAt l now (l.Debug now) LogrusLevel.debugL
    ∧ freshEntryAt l now (l.Info now) LogrusLevel.infoL
    ∧ freshEntryAt l now (l.Warn now) LogrusLevel.warnL
    ∧ freshEntryAt l now (l.Error now) LogrusLevel.errorL
    ∧ freshEntryAt l now (l.Fatal now) LogrusLevel.fatalL
    ∧ freshEntryAt l now (l.Panic now) LogrusLevel.panicL :=
  ⟨freshEntry_mk l now LogrusLevel.debugL, freshEntry_mk l now LogrusLevel.infoL,
   freshEntry_mk l now LogrusLevel.warnL, freshEntry_mk l now LogrusLevel.errorL,
   freshEntry_mk l now LogrusLevel.fatalL, freshEntry_mk l now LogrusLevel.panicL⟩

/-- C5 witness: a concrete Debug entry at time 7 keeps the logger's
persistent "svc" field and stamps "time" with 7. -/
theorem c5_constructors_fresh_entries_witness :
    getField ((lLog.Debug ⟨[("svc", Value.str "x")]⟩ 7).entry) "svc"
        = some (Value.str "x")
    ∧ getField ((lLog.Debug ⟨[("svc", Value.str "x")]⟩ 7).entry) "time"
        = some (Value.time 7) :=
  ⟨(c5_constructors_fresh_entries ⟨[("svc", Value.str "x")]⟩ 7).1.2.2.2 "svc" (by decide),
   (c5_constructors_fresh_entries ⟨[("svc", Value.str "x")]⟩ 7).1.2.1⟩

/-- C6: field attachment is last-write-wins — over any sequence of Add*
calls the record handed to the backend at Flush binds each key to the value
of the latest call that wrote it (falling back to the entry's prior binding
when none did), and in particular AddStr "k" "a" then AddStr "k" "b" leaves
"k" bound to "b". -/
theorem c6_last_write_wins (e : lEntry) (ops : List AddOp) (k : String) (msg : String) :
    ((applyOps e ops).Flush msg).head?
        = some (Effect.write (applyOps e ops).level (applyOps e ops).entry msg)
    ∧ getField ((applyOps e ops).entry) k
        = (match lastBind (allFields ops) k with
           | some v => some v
           | none => getField e.entry k)
    ∧ getField (((e.AddStr "k" "a").AddStr "k" "b").entry) "k" = some (Value.str "b") := by
  refine ⟨flush_head _ msg, ?_, ?_⟩
  · rw [applyOps_entry, getField_setFields_last]
  · exact getField_setField_self _ "k" (Value.str "b")

/-- C7: AddErr attaches exactly the two fields "err" (the error's message)
and "err_stack" (the stack-extraction text, present — and empty — even for
an error without trace metadata) and leaves every other field unchanged. -/
theorem c7_adderr_two_fields (e : lEntry) (err : GoError) :
    getField ((e.AddErr err).entry) "err" = some (Value.str err.msg)
    ∧ getField ((e.AddErr err).entry) "err_stack" = some (Value.str (errorStackText err))
    ∧ (∀ k, k ≠ "err" → k ≠ "err_stack" →
        getField ((e.AddErr err).entry) k = getField e.entry k)
    ∧ (err.stack = none → errorStackText err = "") := by
  refine ⟨?_, ?_, ?_, ?_⟩
  · rw [show (e.AddErr err).entry
        = setField (setField e.entry "err" (Value.str err.msg)) "err_stack"
            (Value.str (errorStackText err)) from rfl,
      getField_setField_ne _ _ _ _ (by decide), getField_setField_self]
  · exact getField_setField_self _ "err_stack" (Value.str (errorStackText err))
  · intro k h1 h2
    rw [show (e.AddErr err).entry
        = setField (setField e.entry "err" (Value.str err.msg)) "err_stack"
            (Value.str (errorStackText err)) from rfl,
      getField_setField_ne _ _ _ _ (Ne.symm h2), getField_setField_ne _ _ _ _ (Ne.symm h1)]
  · intro hs
    simp [errorStackText, hs]

/-- C7 witness: attaching a traceless error leaves unrelated fields alone
and its extracted stack text is the empty string. -/
theorem c7_adderr_two_fields_witness :
    getField ((lEntry.AddErr ⟨LogrusLevel.infoL, [("a", Value.int 1)]⟩
        ⟨"bad", none⟩).entry) "a" = some (Value.int 1)
    ∧ errorStackText ⟨"bad", none⟩ = "" :=
  ⟨(c7_adderr_two_fields ⟨LogrusLevel.infoL, [("a", Value.int 1)]⟩ ⟨"bad", none⟩).2.2.1
      "a" (by decide) (by decide),
   (c7_adderr_two_fields ⟨LogrusLevel.infoL, [("a", Value.int 1)]⟩ ⟨"bad", none⟩).2.2.2 rfl⟩

/-- C8: AddError attaches the field `k` bound to the error's message and the
field `k ++ "_stack"` bound to the extracted trace text, and AddErr produces
exactly the Entry state of AddError "err". -/
theorem c8_adderror_parameterized (e : lEntry) (k : String) (err : GoError) :
    getField ((e.AddError k err).entry) k = some (Value.str err.msg)
    ∧ getField ((e.AddError k err).entry) (k ++ "_stack")
        = some (Value.str (errorStackText err))
    ∧ e.AddErr err = e.AddError "err" err := by
  refine ⟨?_, ?_, ?_⟩
  · rw [show (e.AddError k err).entry
        = setField (setField e.entry k (Value.str err.msg)) (k ++ "_stack")
            (Value.str (errorStackText err)) from rfl,
      getField_setField_ne _ _ _ _ (Ne.symm (key_ne_key_stack k)), getField_setField_self]
  · exact getField_setField_self _ (k ++ "_stack") (Value.str (errorStackText err))
  · have hs : "err" ++ "_stack" = "err_stack" := rfl
    simp [lEntry.AddErr, lEntry.AddError, hs]

/-- C9 counterexample: the claim fails as stated — an Add* call that writes
the key "time" replaces the construction stamp, so after
`Info` at time 5 followed by `AddStr "time" "boom"` the "time" field no
longer holds the construction timestamp. -/
theorem c9_counterexample_time_overwritten :
    getField (((lLog.Info ⟨[]⟩ 5).AddStr "time" "boom").entry) "time"
        = some (Value.str "boom")
    ∧ Value.str "boom" ≠ Value.time 5 :=
  ⟨by decide, by decide⟩

/-- C9 amended: every Entry built by a constructor (fields = the logger's
persistent fields plus the construction stamp) carries exactly one "time"
field equal to the construction-time stamp, and this is preserved by every
sequence of Add* calls that writes no field named "time", up to and
including the record handed to the backend at Flush. -/
theorem c9_time_invariant (l : lLog) (now : Nat) (e0 : lEntry) (ops : List AddOp)
    (msg : String)
    (he : e0.entry = setField l.fields "time" (Value.time now))
    (h : ∀ op ∈ ops, avoidsKey op "time") :
    countKey ((applyOps e0 ops).entry) "time" = 1
    ∧ getField ((applyOps e0 ops).entry) "time" = some (Value.time now)
    ∧ ((applyOps e0 ops).Flush msg).head?
        = some (Effect.write (applyOps e0 ops).level (applyOps e0 ops).entry msg) := by
  have havoid := allFields_avoid ops "time" h
  refine ⟨?_, ?_, flush_head _ msg⟩
  · rw [applyOps_entry, countKey_setFields_avoid _ _ _ havoid, he]
    exact countKey_setField_self l.fields "time" (Value.time now)
  · rw [applyOps_entry, getField_setFields_avoid _ _ _ havoid, he]
    exact getField_setField_self l.fields "time" (Value.time now)

/-- C9 witness: a concrete Info entry stamped at time 3, after an unrelated
AddStr, still carries exactly one "time" field holding the stamp 3. -/
theorem c9_time_invariant_witness :
    countKey ((applyOps (lLog.Info ⟨[]⟩ 3) [AddOp.str "x" "y"]).entry) "time" = 1
    ∧ getField ((applyOps (lLog.Info ⟨[]⟩ 3) [AddOp.str "x" "y"]).entry) "time"
        = some (Value.time 3) :=
  ⟨(c9_time_invariant ⟨[]⟩ 3 (lLog.Info ⟨[]⟩ 3) [AddOp.str "x" "y"] "m" rfl (by decide)).1,
   (c9_time_invariant ⟨[]⟩ 3 (lLog.Info ⟨[]⟩ 3) [AddOp.str "x" "y"] "m" rfl (by decide)).2.1⟩
